import Mathlib

/-!
Shallow embedding of the shrimp assistant core: the bubble splitter of the
turn orchestrator, the shell session manager (buffered output streams,
output trimming, session resolution, command dispatch), the file-edit tool,
the trigger-run final-result extraction, the persistent system-prompt
memory store and the conversation store, translated from the TypeScript
sources, together with theorems settling claims C1 to C10.

JavaScript strings are modelled as lists of characters (`Str`).  The
JavaScript string operations the code uses (`trim`, `slice`, `split` on
the concrete regular expressions appearing in the sources) are translated
for the character classes the program manipulates; the `\s` class is
modelled by its ASCII members, which is exact on the inputs the claims
quantify over.  Environment-derived configuration constants
(`MAX_OUTPUT_CHARS`, `MAX_SESSIONS`) are parameters of the corresponding
definitions.
-/

namespace Shrimp

/-- JavaScript strings, modelled as lists of characters. -/
abbrev Str := List Char

/-- Characters matched by the JavaScript regex class `\s` and removed by
`String.prototype.trim` (ASCII members: space, tab, newline, carriage
return, vertical tab, form feed). -/
def isWs (c : Char) : Bool :=
  c == ' ' || c == '\t' || c == '\n' || c == '\r' ||
    c == Char.ofNat 11 || c == Char.ofNat 12

/-- Model of `String.prototype.trim`: drop whitespace from both ends. -/
def jsTrim (cs : Str) : Str :=
  ((cs.dropWhile isWs).reverse.dropWhile isWs).reverse

/-- Helper for `value.replace(/\s+/g, " ")`: `prevWs` records whether the
scan is inside a whitespace run; the first character of each run is
replaced by a single space and the rest of the run is dropped, which is
exactly what replacing every maximal `\s+` match by one space does. -/
def collapseWsAux (prevWs : Bool) : Str → Str
  | [] => []
  | c :: rest =>
    if isWs c then
      if prevWs then collapseWsAux true rest
      else ' ' :: collapseWsAux true rest
    else c :: collapseWsAux false rest

/-- Model of `value.replace(/\s+/g, " ")`. -/
def collapseWs (cs : Str) : Str :=
  collapseWsAux false cs

/-- True when the first character of the string satisfies `p`. -/
def headSat (p : Char → Bool) : Str → Bool
  | [] => false
  | c :: _ => p c

/-- Helper for `"...".split(/\n{2,}/)`: `cur` holds the reversed current
part and `nl` the number of newlines read immediately before the scan
position.  A run of two or more newlines is a separator (consumed
greedily, as the regex quantifier is greedy); a lone newline is ordinary
content. -/
def splitParasAux (cur : Str) (nl : Nat) : Str → List Str
  | [] =>
    if 2 ≤ nl then [cur.reverse, []]
    else [(List.replicate nl '\n' ++ cur).reverse]
  | c :: rest =>
    if c == '\n' then splitParasAux cur (nl + 1) rest
    else if 2 ≤ nl then cur.reverse :: splitParasAux [c] 0 rest
    else splitParasAux (c :: (List.replicate nl '\n' ++ cur)) 0 rest

/-- Model of `normalized.split(/\n{2,}/)` from `splitIntoBubbles`. -/
def splitParas (cs : Str) : List Str :=
  splitParasAux [] 0 cs

/-- Sentence-ending characters of the splitter regex class `[.!?]`. -/
def isSentEnd (c : Char) : Bool :=
  c == '.' || c == '!' || c == '?'

/-- Helper for `"...".split(/(?<=[.!?])\s+/)`: `cur` holds the reversed
current part and `sep` records whether the scan is inside a separator (a
whitespace run whose preceding character, the head of `cur`, is a
sentence terminator).  The lookbehind never matches inside a whitespace
run, so a run is a separator exactly when its first character follows a
terminator, and then the whole run is consumed greedily. -/
def splitSentsAux (cur : Str) (sep : Bool) : Str → List Str
  | [] =>
    if sep then [cur.reverse, []] else [cur.reverse]
  | c :: rest =>
    if sep then
      if isWs c then splitSentsAux cur true rest
      else cur.reverse :: splitSentsAux [c] false rest
    else
      if isWs c && headSat isSentEnd cur then splitSentsAux cur true rest
      else splitSentsAux (c :: cur) false rest

/-- Model of `normalized.split(/(?<=[.!?])\s+/)` from `splitIntoBubbles`. -/
def splitSents (cs : Str) : List Str :=
  splitSentsAux [] false cs

/-- Pair-grouping loop of `splitIntoBubbles`: `for (i = 0; i < n; i += 2)
bubbles.push(sentences.slice(i, i + 2).join(" "))`. -/
def pairUp : List Str → List Str
  | [] => []
  | [s] => [s]
  | a :: b :: rest => (a ++ ' ' :: b) :: pairUp rest

/-- Model of `text.replace(/\r/g, "")`. -/
def stripCR (cs : Str) : Str :=
  cs.filter (fun c => !(c == '\r'))

/-- The normalisation prefix of `splitIntoBubbles`:
`text.replace(/\r/g, "").trim()`. -/
def normalizeText (cs : Str) : Str :=
  jsTrim (stripCR cs)

/-- Paragraph list of `splitIntoBubbles`: split on blank lines, trim each
part, keep the non-empty ones (`.filter(Boolean)`). -/
def paragraphsOf (cs : Str) : List Str :=
  ((splitParas cs).map jsTrim).filter (fun p => !p.isEmpty)

/-- Sentence list of `splitIntoBubbles`: split after sentence punctuation,
trim each part, keep the non-empty ones. -/
def sentencesOf (cs : Str) : List Str :=
  ((splitSents cs).map jsTrim).filter (fun p => !p.isEmpty)

/-- Model of `splitIntoBubbles` (src/lib/assistant.ts lines 106 to 129). -/
def splitIntoBubbles (text : Str) : List Str :=
  let normalized := normalizeText text
  if normalized.isEmpty then []
  else
    let byParagraph := paragraphsOf normalized
    if 1 < byParagraph.length then byParagraph
    else
      let sentences := sentencesOf normalized
      if sentences.length ≤ 2 then [normalized]
      else pairUp sentences

/-- Retained tail of one shell output stream (part_004 `BufferedStream`):
`offset` counts the characters dropped from the front, `data` is the
retained tail. -/
structure BufferedStream where
  offset : Nat
  data : Str
deriving Repr, DecidableEq

/-- Stream state of a freshly created session: nothing appended. -/
def emptyStream : BufferedStream :=
  { offset := 0, data := [] }

/-- Retention cap used by `capStream`:
`Math.max(MAX_OUTPUT_CHARS * 2, 2000)`. -/
def maxRetained (moc : Nat) : Nat :=
  max (moc * 2) 2000

/-- Model of `capStream` (part_004 lines 91 to 97): drop the front of the
tail down to the retention cap, accounting for it in `offset`. -/
def capStream (moc : Nat) (s : BufferedStream) : BufferedStream :=
  if s.data.length ≤ maxRetained moc then s
  else
    let dropped := s.data.length - maxRetained moc
    { offset := s.offset + dropped, data := s.data.drop dropped }

/-- Model of `appendStream` (part_004 lines 99 to 103). -/
def appendStream (moc : Nat) (s : BufferedStream) (v : Str) : BufferedStream :=
  if v.isEmpty then s else capStream moc { s with data := s.data ++ v }

/-- Model of `absolutePosition` (part_004 lines 105 to 107). -/
def absolutePosition (s : BufferedStream) : Nat :=
  s.offset + s.data.length

/-- Model of `removeRangeFromStream` (part_004 lines 119 to 124), used to
cut the sentinel line out of the retained stdout tail.  Note that it does
not adjust `offset`.  Natural subtraction renders the
`Math.max(0, ...)` clamp, and a JavaScript-negative `endRel` is covered by
the `endRel <= startRel` early return exactly as `endRel = 0` is here. -/
def removeRangeFromStream (s : BufferedStream) (startAbs endAbs : Nat) : BufferedStream :=
  let startRel := startAbs - s.offset
  let endRel := min s.data.length (endAbs - s.offset)
  if endRel ≤ startRel then s
  else { s with data := s.data.take startRel ++ s.data.drop endRel }

/-- One mutation of a session output stream: an `appendStream` performed by
the child-process data handler, or a `removeRangeFromStream` performed by
`tryConsumePendingCompletion` when a sentinel line is consumed. -/
inductive StreamOp where
  | append (v : Str)
  | remove (startAbs endAbs : Nat)
deriving Repr, DecidableEq

/-- Apply one stream operation. -/
def applyStreamOp (moc : Nat) (s : BufferedStream) : StreamOp → BufferedStream
  | .append v => appendStream moc s v
  | .remove a b => removeRangeFromStream s a b

/-- Run a sequence of stream operations from the fresh stream. -/
def runStreamOps (moc : Nat) (ops : List StreamOp) : BufferedStream :=
  ops.foldl (applyStreamOp moc) emptyStream

/-- Total number of characters ever appended by a sequence of operations. -/
def totalAppended : List StreamOp → Nat
  | [] => 0
  | .append v :: rest => v.length + totalAppended rest
  | .remove _ _ :: rest => totalAppended rest

/-- One step of `runStreamOpsTally`: apply the operation and add to the
tally the retained characters a `remove` actually cut out. -/
def tallyStep (moc : Nat) (acc : BufferedStream × Nat) (op : StreamOp) :
    BufferedStream × Nat :=
  let next := applyStreamOp moc acc.1 op
  match op with
  | .append _ => (next, acc.2)
  | .remove _ _ => (next, acc.2 + (absolutePosition acc.1 - absolutePosition next))

/-- Run a sequence of stream operations, also tallying how many retained
characters the `remove` operations actually cut out. -/
def runStreamOpsTally (moc : Nat) (ops : List StreamOp) : BufferedStream × Nat :=
  ops.foldl (tallyStep moc) (emptyStream, 0)

/-- Marker text appended to a truncated output. -/
def truncatedMarker : Str :=
  '\n' :: "...[truncated]".data

/-- Model of `value.slice(-n)`, including the JavaScript quirk that
`slice(-0)` is `slice(0)`, the whole string. -/
def jsSliceLast (n : Nat) (v : Str) : Str :=
  if n == 0 then v else v.drop (v.length - n)

namespace SentinelManager

/-- Model of `trimOutput` of the sentinel-protocol session manager
(part_004 lines 126 to 129): keep the tail of an over-long output. -/
def trimOutput (moc : Nat) (v : Str) : Str :=
  if v.length ≤ moc then v else jsSliceLast moc v ++ truncatedMarker

end SentinelManager

namespace LegacyManager

/-- Model of `trimOutput` of the legacy simple-exec session manager
(src/lib/shell/session-manager.ts lines 98 to 101): keep the head of an
over-long output. -/
def trimOutput (moc : Nat) (v : Str) : Str :=
  if v.length ≤ moc then v else v.take moc ++ truncatedMarker

end LegacyManager

/-- Last `n` characters of a string, as the spec phrases the trimming. -/
def lastChars (n : Nat) (v : Str) : Str :=
  (v.reverse.take n).reverse

/-- The trimming the claim describes: outputs longer than the cap keep
their last `moc` characters plus the truncation marker. -/
def specTrimLast (moc : Nat) (v : Str) : Str :=
  if v.length ≤ moc then v else lastChars moc v ++ truncatedMarker

/-- First-`moc`-characters variant, matching what the legacy manager
actually does. -/
def specTrimFirst (moc : Nat) (v : Str) : Str :=
  if v.length ≤ moc then v else v.take moc ++ truncatedMarker

/-- Helper for `content.split("\n")`: split on every literal newline. -/
def splitOnNlAux : Str → Str → List Str
  | [], cur => [cur.reverse]
  | c :: rest, cur =>
    if c == '\n' then cur.reverse :: splitOnNlAux rest []
    else splitOnNlAux rest (c :: cur)

/-- Model of `content.split("\n")`. -/
def splitOnNl (cs : Str) : List Str :=
  splitOnNlAux cs []

/-- Model of `lines.join("\n")`. -/
def joinNl (ls : List Str) : Str :=
  List.intercalate ['\n'] ls

/-- One `edit_file` patch, after schema validation (`startLine` and
`endLine` are positive integers). -/
structure EditPatch where
  startLine : Nat
  endLine : Nat
  newText : Str
deriving Repr, DecidableEq

/-- Model of `Array.prototype.splice(start, deleteCount, ...items)` for
non-negative arguments: both indexes are clamped, nothing fails. -/
def jsSplice (lines : List Str) (start deleteCount : Nat) (items : List Str) : List Str :=
  let s := min start lines.length
  let d := min deleteCount (lines.length - s)
  lines.take s ++ items ++ lines.drop (s + d)

/-- Insert a patch into a list already sorted by descending `startLine`,
after every entry with a strictly larger key (stable). -/
def insertByDescStart (p : EditPatch) : List EditPatch → List EditPatch
  | [] => [p]
  | q :: rest =>
    if p.startLine < q.startLine then q :: insertByDescStart p rest
    else p :: q :: rest

/-- Model of `[...patches].sort((a, b) => b.startLine - a.startLine)`: a
stable sort by descending `startLine` (JavaScript sort is stable, so any
stable descending sort produces the same list). -/
def sortByDescStart : List EditPatch → List EditPatch
  | [] => []
  | p :: rest => insertByDescStart p (sortByDescStart rest)

/-- The splice performed for one patch of `applyPatches`
(src/lib/tools.ts lines 33 to 37): `start = startLine - 1`,
`deleteCount = endLine - start`, items `newText.split("\n")`. -/
def applyOnePatch (ls : List Str) (p : EditPatch) : List Str :=
  jsSplice ls (p.startLine - 1) (p.endLine - (p.startLine - 1)) (splitOnNl p.newText)

/-- Model of `applyPatches` (src/lib/tools.ts lines 29 to 40). -/
def applyPatches (content : Str) (patches : List EditPatch) : Str :=
  joinNl ((sortByDescStart patches).foldl applyOnePatch (splitOnNl content))

/-- Descending-`startLine` order, the order `applyPatches` applies
patches in. -/
def descStart (a b : EditPatch) : Prop :=
  b.startLine ≤ a.startLine

/-- Result object of the `edit_file` branch of `runTool`. -/
structure EditResult where
  newContent : Str
  applied : Bool
  hunksApplied : Nat
deriving Repr, DecidableEq

/-- Model of the `edit_file` case of `runTool` (src/lib/tools.ts lines 238
to 245), given the current file content.  The source applies the patches
and reports success; it contains no range check at all, so no input
produces a range error. -/
def editFileTool (content : Str) (patches : List EditPatch) : Except String EditResult :=
  .ok { newContent := applyPatches content patches
        applied := true
        hunksApplied := patches.length }

/-- A patch range outside the file's line count, as the claim phrases
"out of bounds". -/
def patchOutOfBounds (lineCount : Nat) (p : EditPatch) : Prop :=
  lineCount < p.startLine ∨ lineCount < p.endLine

/-- Lowercase a string character-wise (ASCII case folding, which is exact
for the fixed ASCII tag patterns searched case-insensitively). -/
def lowerStr (cs : Str) : Str :=
  cs.map Char.toLower

/-- Opening tag of the final-result convention. -/
def tagOpen : Str :=
  "<final_result>".data

/-- Closing tag of the final-result convention. -/
def tagClose : Str :=
  "</final_result>".data

/-- True when the case-folded text carries the (lowercase) pattern `pat`
at position `i`. -/
def matchesAt (pat cs : Str) (i : Nat) : Bool :=
  lowerStr ((cs.drop i).take pat.length) == pat

/-- Least position at or after `start` where `pat` occurs
case-insensitively in `cs`. -/
def findCI (pat cs : Str) (start : Nat) : Option Nat :=
  (List.range (cs.length + 1)).find? (fun i => Nat.ble start i && matchesAt pat cs i)

/-- Contents captured by the first match of
`/<final_result>([\s\S]*?)<\/final_result>/i`: the text between the
leftmost opening tag and the earliest closing tag after it.  When the
leftmost opening tag has no closing tag after it the regex has no match at
all, because a closing tag following any later opening tag would also
follow the leftmost one. -/
def firstFinalResultContents (cs : Str) : Option Str :=
  match findCI tagOpen cs 0 with
  | none => none
  | some i =>
    match findCI tagClose cs (i + tagOpen.length) with
    | none => none
    | some j => some ((cs.drop (i + tagOpen.length)).take (j - (i + tagOpen.length)))

/-- Model of `extractFinalResult` (src/lib/jobs.ts lines 16 to 21): the
captured contents are whitespace-collapsed and trimmed, and
`normalized || undefined` drops a result that normalises to the empty
string. -/
def extractFinalResult (cs : Str) : Option Str :=
  match firstFinalResultContents cs with
  | none => none
  | some inner =>
    let normalized := jsTrim (collapseWs inner)
    if normalized.isEmpty then none else some normalized

/-- Model of `bubbles.join("\n\n")` from `triggerConversationRun`. -/
def joinBubbles (bs : List Str) : Str :=
  List.intercalate "\n\n".data bs

/-- Value stored in `trigger_runs.final_result_text` by a successful
`triggerConversationRun` (src/lib/jobs.ts lines 59 to 71, persisted via
`completeTriggerRun`): the extraction applied to the joined bubbles. -/
def storedFinalResult (bubbles : List Str) : Option Str :=
  extractFinalResult (joinBubbles bubbles)

/-- What the claim states the stored value is: the contents of the first
case-insensitive final-result match, whitespace-collapsed and trimmed. -/
def specFinalResult (cs : Str) : Option Str :=
  (firstFinalResultContents cs).map (fun inner => jsTrim (collapseWs inner))

/-- Capacity of the persistent memory store (`MAX_MEMORY_ITEMS`). -/
def MAX_MEMORY_ITEMS : Nat := 120

/-- Length cap of one memory item (`MAX_ITEM_LENGTH`). -/
def MAX_ITEM_LENGTH : Nat := 400

/-- Model of `array.slice(-n)` on arrays for `0 < n`: the last `n`
elements. -/
def takeLast (n : Nat) (l : List α) : List α :=
  l.drop (l.length - n)

/-- Memory normalisation of `addSystemPromptMemory`:
`memory.replace(/\s+/g, " ").trim().slice(0, MAX_ITEM_LENGTH)`. -/
def normalizeMemory (m : Str) : Str :=
  (jsTrim (collapseWs m)).take MAX_ITEM_LENGTH

/-- Model of `readStore` (src/lib/system-prompt.ts lines 40 to 56) applied
to the items parsed from the memory file: trim each entry, keep the
non-empty ones, keep the newest `MAX_MEMORY_ITEMS`. -/
def readStoreItems (file : List Str) : List Str :=
  takeLast MAX_MEMORY_ITEMS ((file.map jsTrim).filter (fun i => !i.isEmpty))

/-- Items of the persistent memory file after `addSystemPromptMemory(m)`
(src/lib/system-prompt.ts lines 67 to 86), given the items of the prior
file.  The store is written back only when the normalised item is new;
before writing, an over-full store is cut to the newest
`MAX_MEMORY_ITEMS`. -/
def addSystemPromptMemoryFile (file : List Str) (m : Str) : Except String (List Str) :=
  let normalized := normalizeMemory m
  if normalized.isEmpty then .error "memory is empty"
  else
    let items := readStoreItems file
    if items.contains normalized then .ok file
    else
      let pushed := items ++ [normalized]
      .ok (if MAX_MEMORY_ITEMS < pushed.length then takeLast MAX_MEMORY_ITEMS pushed else pushed)

/-- Row of the `conversations` table. -/
structure Conversation where
  id : String
  title : String
  model : String
  createdAt : String
  updatedAt : String
deriving Repr, DecidableEq

/-- The `conversations` table, in insertion order. -/
abbrev ConversationTable := List Conversation

/-- Model of `getConversation` (SELECT by primary key). -/
def getConversation (tbl : ConversationTable) (id : String) : Option Conversation :=
  tbl.find? (fun c => c.id == id)

/-- Model of `createConversation` (src/lib/store.ts lines 82 to 90); the
fresh `randomUUID` and the timestamp are parameters. -/
def createConversation (tbl : ConversationTable) (freshId ts model title : String) :
    Conversation × ConversationTable :=
  let c : Conversation :=
    { id := freshId, title := title, model := model, createdAt := ts, updatedAt := ts }
  (c, tbl ++ [c])

/-- The conversation `createConversation` builds for `upsertConversation`:
fresh id, default title "New chat", the requested model, both stamps at
the current time. -/
def freshConversation (freshId ts model : String) : Conversation :=
  { id := freshId, title := "New chat", model := model, createdAt := ts, updatedAt := ts }

/-- Model of `upsertConversation` (src/lib/store.ts lines 92 to 105): a
JavaScript-falsy id (absent or empty) creates, an unknown id creates with
the default title "New chat", and a known id updates only `model` and
`updated_at`. -/
def upsertConversation (tbl : ConversationTable) (freshId ts : String)
    (id? : Option String) (model : String) : Conversation × ConversationTable :=
  match id? with
  | none => createConversation tbl freshId ts model "New chat"
  | some id =>
    if id.isEmpty then createConversation tbl freshId ts model "New chat"
    else
      match getConversation tbl id with
      | none => createConversation tbl freshId ts model "New chat"
      | some existing =>
        ({ existing with model := model, updatedAt := ts },
         tbl.map (fun c => if c.id == id then { c with model := model, updatedAt := ts } else c))

/-- Opening think tag stripped from assistant content. -/
def thinkOpen : Str :=
  "<think>".data

/-- Closing think tag stripped from assistant content. -/
def thinkClose : Str :=
  "</think>".data

/-- Model of `text.replace(/<think>[\s\S]*?<\/think>/gi, "")`: repeatedly
cut the leftmost think block, resuming the scan after the cut.  When the
leftmost opening tag has no closing tag after it there is no further
match. -/
def stripThinkBlocks (cs : Str) : Str :=
  match h1 : findCI thinkOpen cs 0 with
  | none => cs
  | some i =>
    match h2 : findCI thinkClose cs (i + thinkOpen.length) with
    | none => cs
    | some j => cs.take i ++ stripThinkBlocks (cs.drop (j + thinkClose.length))
termination_by cs.length
decreasing_by
  simp only [findCI] at h2
  have hpred := List.find?_some h2
  simp only [Bool.and_eq_true] at hpred
  have hm := hpred.2
  simp only [matchesAt, beq_iff_eq] at hm
  have hlen := congrArg List.length hm
  simp only [lowerStr, List.length_map, List.length_take, List.length_drop] at hlen
  have hcl : thinkClose.length = 8 := by decide
  simp only [List.length_drop]
  omega

/-- Model of `text.replace(/<\/?think>/gi, "")`: delete every stray
opening or closing think tag. -/
def stripThinkTags : Str → Str
  | [] => []
  | c :: rest =>
    if matchesAt thinkClose (c :: rest) 0 then
      stripThinkTags ((c :: rest).drop thinkClose.length)
    else if matchesAt thinkOpen (c :: rest) 0 then
      stripThinkTags ((c :: rest).drop thinkOpen.length)
    else
      c :: stripThinkTags rest
termination_by cs => cs.length
decreasing_by
  all_goals simp only [List.length_cons, List.length_drop]
  · have : thinkClose.length = 8 := by decide
    omega
  · have : thinkOpen.length = 7 := by decide
    omega
  · omega

/-- Model of `sanitizeAssistantText` (src/lib/assistant.ts lines 131 to
136). -/
def sanitizeAssistantText (cs : Str) : Str :=
  jsTrim (stripThinkTags (stripThinkBlocks cs))

/-- One tool call requested by the LLM. -/
structure ToolCallReq where
  id : String
  name : String
  argsRaw : String
deriving Repr, DecidableEq

/-- The assistant message of one chat completion: optional text content
plus requested tool calls. -/
structure AssistantMsg where
  content : Option Str
  toolCalls : List ToolCallReq
deriving Repr, DecidableEq

/-- Behaviour of the chat-completion endpoint over one turn: the
assistant message (or its absence, `completion.choices[0].message`
undefined) returned by the i-th round trip.  Quantifying over every
oracle covers every possible dependence of the responses on the working
messages and on tool outputs. -/
abbrev LLMOracle := Nat → Option AssistantMsg

/-- Model of the bounded LLM loop of `runAssistantTurn`
(src/lib/assistant.ts lines 212 to 302) from iteration `i`: returns the
accumulated `finalAssistantText` and the number of LLM round trips
performed from this point on.  Tool dispatch feeds `workingMessages`
only, which the oracle abstracts, so it does not appear in the state. -/
def runLoopFrom (oracle : LLMOracle) (i : Nat) (acc : Str) : Str × Nat :=
  if hi : 8 ≤ i then (acc, 0)
  else
    match oracle i with
    | none => (acc, 1)
    | some msg =>
      let text := match msg.content with
        | some c => sanitizeAssistantText c
        | none => []
      if msg.toolCalls.isEmpty then
        (if text.isEmpty then acc else acc ++ text ++ ['\n'], 1)
      else
        let acc1 := if text.isEmpty then acc else acc ++ text ++ ['\n']
        let r := runLoopFrom oracle (i + 1) acc1
        (r.1, r.2 + 1)
termination_by 8 - i
decreasing_by omega

/-- The loop of `runAssistantTurn`, started as the source starts it, plus
the bubble split the orchestrator performs on loop exit: returns the
bubbles and the number of LLM round trips of the turn. -/
def runAssistantLoop (oracle : LLMOracle) : List Str × Nat :=
  let r := runLoopFrom oracle 0 []
  (splitIntoBubbles (jsTrim r.1), r.2)

/-- Model of the legacy stream loop (part_000 lines 84 to 196): the same
8-iteration bound, without think-tag sanitisation, and without the
trailing newline on the final (tool-free) text. -/
def legacyLoopFrom (oracle : LLMOracle) (i : Nat) (acc : Str) : Str × Nat :=
  if hi : 8 ≤ i then (acc, 0)
  else
    match oracle i with
    | none => (acc, 1)
    | some msg =>
      let text := match msg.content with
        | some c => c
        | none => []
      if msg.toolCalls.isEmpty then
        (if text.isEmpty then acc else acc ++ text, 1)
      else
        let acc1 := if text.isEmpty then acc else acc ++ text ++ ['\n']
        let r := legacyLoopFrom oracle (i + 1) acc1
        (r.1, r.2 + 1)
termination_by 8 - i
decreasing_by omega

/-- In-flight non-interactive command record of a session (part_004
`PendingCommand`). -/
structure PendingCommand where
  token : String
  startedAt : Nat
  stdoutStart : Nat
  stderrStart : Nat
deriving Repr, DecidableEq

/-- In-flight interactive command record of a session (part_004
`ActiveInteractiveCommand`, minus the raw process handle). -/
structure InteractiveCommand where
  startedAt : Nat
  stdout : BufferedStream
  stderr : BufferedStream
  stdoutReadAt : Nat
  stderrReadAt : Nat
deriving Repr, DecidableEq

/-- One shell session (part_004 `ShellSessionInternal`, minus the raw
process handle; killing a process is recorded in the kill lists the
operations return). -/
structure SessionState where
  id : String
  cwd : String
  platform : String
  shell : String
  createdAt : Nat
  lastUsedAt : Nat
  stdout : BufferedStream
  stderr : BufferedStream
  stdoutReadAt : Nat
  stderrReadAt : Nat
  pendingCommand : Option PendingCommand
  interactive : Option InteractiveCommand
deriving Repr, DecidableEq

/-- Process-wide manager state: the session map (insertion-ordered, as a
JavaScript `Map` is) and the `lastCleanup` stamp. -/
structure ManagerState where
  sessions : List SessionState
  lastCleanup : Nat
deriving Repr, DecidableEq

/-- Environment of the session manager: the `MAX_SESSIONS` capacity, the
behaviour of `path.resolve` against the process working directory, and
the spawn parameters. -/
structure ManagerConfig where
  maxSessions : Nat
  resolve : String → String
  processCwd : String
  platform : String
  shell : String

/-- Session idle lifetime, `SESSION_TTL_MS = 1000 * 60 * 30`. -/
def SESSION_TTL_MS : Nat := 1800000

/-- JavaScript truthiness on an optional string: the empty string is
falsy. -/
def jsOptStr : Option String → Option String
  | none => none
  | some s => if s.isEmpty then none else some s

/-- Model of `cleanupSessions` (part_004 lines 131 to 143): at most every
30 s, kill and drop sessions idle past the TTL.  Returns the new state
and the ids of the killed sessions.  Natural subtraction agrees with the
JavaScript comparisons on both branches. -/
def cleanupSessions (t : Nat) (st : ManagerState) : ManagerState × List String :=
  if t - st.lastCleanup < 30000 then (st, [])
  else
    ({ sessions := st.sessions.filter (fun s => !(SESSION_TTL_MS < t - s.lastUsedAt))
       lastCleanup := t },
     (st.sessions.filter (fun s => SESSION_TTL_MS < t - s.lastUsedAt)).map (fun s => s.id))

/-- Model of `[...sessions.values()].sort((a, b) => a.lastUsedAt -
b.lastUsedAt)[0]`: the first session, in insertion order, with minimal
`lastUsedAt` (JavaScript sort is stable). -/
def oldestSession (l : List SessionState) : Option SessionState :=
  l.foldl
    (fun best s =>
      match best with
      | none => some s
      | some b => if s.lastUsedAt < b.lastUsedAt then some s else some b)
    none

/-- The session object `createSessionInternal` registers: fresh id, the
resolved working directory (`path.resolve(cwd)` or `process.cwd()`), the
spawn parameters, empty output tails and no command in flight. -/
def newSession (cfg : ManagerConfig) (t : Nat) (freshId : String)
    (cwd? : Option String) : SessionState :=
  { id := freshId
    cwd :=
      match jsOptStr cwd? with
      | some c => cfg.resolve c
      | none => cfg.processCwd
    platform := cfg.platform, shell := cfg.shell
    createdAt := t, lastUsedAt := t
    stdout := emptyStream, stderr := emptyStream, stdoutReadAt := 0, stderrReadAt := 0
    pendingCommand := none, interactive := none }

/-- Model of `createSessionInternal` (part_004 lines 153 to 196): sweep,
evict the oldest session when at capacity, then register a fresh session
in the requested (resolved) directory.  The fresh `randomUUID` and the
clock are parameters. -/
def createSessionInternal (cfg : ManagerConfig) (t : Nat) (freshId : String)
    (cwd? : Option String) (st : ManagerState) :
    SessionState × ManagerState × List String :=
  let r1 := cleanupSessions t st
  let st1 := r1.1
  let evicted :=
    if cfg.maxSessions ≤ st1.sessions.length then
      match oldestSession st1.sessions with
      | some oldest => (st1.sessions.filter (fun s => !(s.id == oldest.id)), [oldest.id])
      | none => (st1.sessions, [])
    else (st1.sessions, [])
  let sess := newSession cfg t freshId cwd?
  (sess, { sessions := evicted.1 ++ [sess], lastCleanup := st1.lastCleanup },
   r1.2 ++ evicted.2)

/-- Lookup of `sessions.get(sessionId)`. -/
def lookupSession (st : ManagerState) (sid : String) : Option SessionState :=
  st.sessions.find? (fun s => s.id == sid)

/-- In-place mutation of the session object registered under `sid`. -/
def updateSessionState (st : ManagerState) (sid : String)
    (f : SessionState → SessionState) : ManagerState :=
  { st with sessions := st.sessions.map (fun x => if x.id == sid then f x else x) }

/-- Model of `getSession` (part_004 lines 218 to 231): a registered id is
reused (stamping `lastUsedAt`) unless an explicit `cwd` resolves to a
different directory, in which case the session is killed, dropped and
replaced by a fresh one.  Returns the resolved session, the new state and
the ids of killed sessions. -/
def getSession (cfg : ManagerConfig) (t : Nat) (freshId : String)
    (sessionId? cwd? : Option String) (st : ManagerState) :
    SessionState × ManagerState × List String :=
  match jsOptStr sessionId? with
  | none => createSessionInternal cfg t freshId cwd? st
  | some sid =>
    match lookupSession st sid with
    | none => createSessionInternal cfg t freshId cwd? st
    | some s =>
      let s1 := { s with lastUsedAt := t }
      let st1 := updateSessionState st sid (fun x => { x with lastUsedAt := t })
      match jsOptStr cwd? with
      | some c =>
        if cfg.resolve c == s.cwd then (s1, st1, [])
        else
          let st2 := { st1 with sessions := st1.sessions.filter (fun x => !(x.id == sid)) }
          let r := createSessionInternal cfg t freshId cwd? st2
          (r.1, r.2.1, sid :: r.2.2)
      | none => (s1, st1, [])

/-- Structured result of `runCommand` (part_004 `RunCommandResult`). -/
structure RunCommandResult where
  sessionId : String
  exitCode : Option Int
  stdout : String
  stderr : String
  timedOut : Bool
  durationMs : Nat
  cwd : String
deriving Repr, DecidableEq

/-- The busy message of `runCommand`. -/
def busyMessage : String :=
  "Session already has a running command. Use write_stdin to continue interacting."

/-- The fail-fast structured result `runCommand` returns when the
resolved session already has a command in flight: no exit code, empty
stdout, the explanatory message on stderr, not a timeout, and the
session's current directory. -/
def busyResult (sid cwd : String) : RunCommandResult :=
  { sessionId := sid, exitCode := none, stdout := "", stderr := busyMessage
    timedOut := false, durationMs := 0, cwd := cwd }

/-- Arguments of `runCommand` after schema validation. -/
structure RunCommandInput where
  sessionId : Option String
  command : String
  cwd : Option String
  interactive : Bool
  timeoutMs : Option Nat
deriving Repr, DecidableEq

/-- Synchronous outcome of the dispatch phase of `runCommand`: either the
fail-fast busy result, or the command was put in flight on the given
session (the polling phase then awaits completion). -/
inductive RunStart where
  | busy (result : RunCommandResult)
  | dispatched (sessionId : String)
deriving Repr, DecidableEq

/-- Model of `runCommand` (part_004 lines 320 to 430) up to its first
await: sweep, resolve the session, fail fast when the resolved session
already has a command in flight, otherwise register the in-flight record
(`interactive` spawn or `pendingCommand` with the sentinel token) on the
session.  Returns the outcome, the new state and the killed session
ids. -/
def runCommandDispatch (cfg : ManagerConfig) (t : Nat) (freshId token : String)
    (input : RunCommandInput) (st : ManagerState) :
    RunStart × ManagerState × List String :=
  let r0 := cleanupSessions t st
  let r1 := getSession cfg t freshId input.sessionId input.cwd r0.1
  let session := r1.1
  let st1 := r1.2.1
  if session.pendingCommand.isSome || session.interactive.isSome then
    (.busy (busyResult session.id session.cwd), st1, r0.2 ++ r1.2.2)
  else if input.interactive then
    let active : InteractiveCommand :=
      { startedAt := t, stdout := emptyStream, stderr := emptyStream
        stdoutReadAt := 0, stderrReadAt := 0 }
    (.dispatched session.id,
     updateSessionState st1 session.id
       (fun s => { s with interactive := some active, lastUsedAt := t }),
     r0.2 ++ r1.2.2)
  else
    let pending : PendingCommand :=
      { token := token, startedAt := t
        stdoutStart := absolutePosition session.stdout
        stderrStart := absolutePosition session.stderr }
    (.dispatched session.id,
     updateSessionState st1 session.id (fun s => { s with pendingCommand := some pending }),
     r0.2 ++ r1.2.2)

/-- Concrete manager environment used to instantiate the session-manager
theorems on explicit states. -/
def sampleConfig : ManagerConfig :=
  { maxSessions := 8, resolve := fun p => p, processCwd := "/w", platform := "linux"
    shell := "bash" }

/-- Concrete in-flight non-interactive command record. -/
def samplePending : PendingCommand :=
  { token := "tk", startedAt := 1, stdoutStart := 0, stderrStart := 0 }

/-- Concrete session with a pending command. -/
def sampleBusySession : SessionState :=
  { id := "S1", cwd := "/w", platform := "linux", shell := "bash", createdAt := 0
    lastUsedAt := 50, stdout := emptyStream, stderr := emptyStream, stdoutReadAt := 0
    stderrReadAt := 0, pendingCommand := some samplePending, interactive := none }

/-- Concrete manager state holding only the busy session. -/
def sampleBusyState : ManagerState :=
  { sessions := [sampleBusySession], lastCleanup := 0 }

/-- Concrete `run_command` arguments naming the busy session, without an
explicit working directory. -/
def sampleBusyInput : RunCommandInput :=
  { sessionId := some "S1", command := "ls", cwd := none, interactive := false
    timeoutMs := none }

/-- Concrete `run_command` arguments naming the busy session with an
explicit working directory that resolves elsewhere. -/
def sampleCwdInput : RunCommandInput :=
  { sessionId := some "S1", command := "ls", cwd := some "/other", interactive := false
    timeoutMs := none }

/-! Helper lemmas. -/

theorem absolutePosition_capStream (moc : Nat) (s : BufferedStream) :
    absolutePosition (capStream moc s) = absolutePosition s := by
  unfold capStream absolutePosition
  split
  · rfl
  · simp only [List.length_drop]
    omega

theorem length_capStream (moc : Nat) (s : BufferedStream) :
    (capStream moc s).data.length = min s.data.length (maxRetained moc) := by
  unfold capStream
  split
  · next h => omega
  · next h =>
    simp only [List.length_drop]
    omega

theorem absolutePosition_appendStream (moc : Nat) (s : BufferedStream) (v : Str) :
    absolutePosition (appendStream moc s v) = absolutePosition s + v.length := by
  unfold appendStream
  split
  · next h =>
    rw [List.isEmpty_iff] at h
    simp [h]
  · rw [absolutePosition_capStream]
    simp only [absolutePosition, List.length_append]
    omega

theorem removeRange_absolutePosition_le (s : BufferedStream) (a b : Nat) :
    absolutePosition (removeRangeFromStream s a b) ≤ absolutePosition s := by
  simp only [removeRangeFromStream]
  split
  · exact Nat.le_refl _
  · simp only [absolutePosition, List.length_append, List.length_take, List.length_drop]
    omega

theorem removeRange_length_le (s : BufferedStream) (a b : Nat) :
    (removeRangeFromStream s a b).data.length ≤ s.data.length := by
  simp only [removeRangeFromStream]
  split
  · exact Nat.le_refl _
  · simp only [List.length_append, List.length_take, List.length_drop]
    omega

theorem runStreamOpsTally_loop (moc : Nat) (ops : List StreamOp) :
    ∀ (s : BufferedStream) (k : Nat),
      (ops.foldl (tallyStep moc) (s, k)).1 = ops.foldl (applyStreamOp moc) s ∧
      absolutePosition (ops.foldl (tallyStep moc) (s, k)).1 +
          (ops.foldl (tallyStep moc) (s, k)).2 =
        absolutePosition s + k + totalAppended ops := by
  induction ops with
  | nil =>
    intro s k
    refine ⟨rfl, ?_⟩
    simp only [List.foldl_nil, totalAppended]
    omega
  | cons op rest ih =>
    intro s k
    cases op with
    | append v =>
      simp only [List.foldl_cons, tallyStep, applyStreamOp]
      obtain ⟨h1, h2⟩ := ih (appendStream moc s v) k
      refine ⟨h1, ?_⟩
      rw [h2, absolutePosition_appendStream]
      simp only [totalAppended]
      omega
    | remove a b =>
      simp only [List.foldl_cons, tallyStep, applyStreamOp]
      obtain ⟨h1, h2⟩ :=
        ih (removeRangeFromStream s a b)
          (k + (absolutePosition s - absolutePosition (removeRangeFromStream s a b)))
      refine ⟨h1, ?_⟩
      rw [h2]
      have hle := removeRange_absolutePosition_le s a b
      simp only [totalAppended]
      omega

theorem runStreamOps_length_le (moc : Nat) (ops : List StreamOp) :
    ∀ s : BufferedStream, s.data.length ≤ maxRetained moc →
      (ops.foldl (applyStreamOp moc) s).data.length ≤ maxRetained moc := by
  induction ops with
  | nil => intro s hs; exact hs
  | cons op rest ih =>
    intro s hs
    simp only [List.foldl_cons]
    cases op with
    | append v =>
      refine ih _ ?_
      simp only [applyStreamOp]
      unfold appendStream
      split
      · exact hs
      · rw [length_capStream]
        omega
    | remove a b =>
      exact ih _ (Nat.le_trans (removeRange_length_le s a b) hs)

theorem lastChars_eq_drop (n : Nat) (v : Str) (h : n ≤ v.length) :
    lastChars n v = v.drop (v.length - n) := by
  unfold lastChars
  have := List.reverse_drop (l := v) (n := v.length - n)
  have hn : v.length - (v.length - n) = n := by omega
  rw [hn] at this
  calc (v.reverse.take n).reverse
      = (v.drop (v.length - n)).reverse.reverse := by rw [this]
    _ = v.drop (v.length - n) := by rw [List.reverse_reverse]

/-! Claim C2.  The retention-cap half of the claimed invariant holds, but
the position equation fails on sentinel consumption:
`removeRangeFromStream` shrinks the retained data without adjusting
`offset`, so after a sentinel line is cut out of the stdout tail,
`offset + len(data)` undercounts the total ever appended by exactly the
removed length. -/

/-- Claim C2 (counterexample): appending a 21-character sentinel line and
consuming it (as `tryConsumePendingCompletion` does) leaves
`offset + len(data) = 0`, while 21 characters were appended. -/
theorem C2_counterexample :
    ¬ (absolutePosition
        (runStreamOps 20000
          [.append "__SHRIMP_DONE_t:0:/x\n".data, .remove 0 21]) =
       totalAppended [.append "__SHRIMP_DONE_t:0:/x\n".data, .remove 0 21]) := by
  decide

/-- Claim C2 (amended): for every session stream and every operation
sequence, `offset + len(data)` plus the characters cut out by sentinel
consumption equals the total ever appended, and the retained tail never
exceeds `max(2 * MAX_OUTPUT_CHARS, 2000)` characters. -/
theorem C2_stream_invariant (moc : Nat) (ops : List StreamOp) :
    (runStreamOpsTally moc ops).1 = runStreamOps moc ops ∧
    absolutePosition (runStreamOpsTally moc ops).1 + (runStreamOpsTally moc ops).2 =
      totalAppended ops ∧
    (runStreamOps moc ops).data.length ≤ maxRetained moc := by
  obtain ⟨h1, h2⟩ := runStreamOpsTally_loop moc ops emptyStream 0
  refine ⟨?_, ?_, ?_⟩
  · simpa only [runStreamOpsTally, runStreamOps] using h1
  · simp only [runStreamOpsTally, runStreamOps]
    rw [h2]
    simp [absolutePosition, emptyStream]
  · refine runStreamOps_length_le moc ops emptyStream ?_
    simp only [emptyStream, List.length_nil, maxRetained]
    omega

/-! Claim C3.  The sentinel-protocol manager (part_004) keeps the last
`MAX_OUTPUT_CHARS` characters, but the legacy simple-exec manager
(src/lib/shell/session-manager.ts) keeps the first `MAX_OUTPUT_CHARS`
characters, so the claim is false as stated over both `run_command`
surfaces. -/

/-- Claim C3 (counterexample): with a cap of 2, the legacy manager trims
"abc" to its first two characters, not its last two. -/
theorem C3_counterexample :
    LegacyManager.trimOutput 2 "abc".data ≠ specTrimLast 2 "abc".data := by
  decide

/-- Claim C3 (amended): for a positive cap, the part_004 `trimOutput`
returns over-long outputs trimmed to their last `MAX_OUTPUT_CHARS`
characters plus the truncation marker, while the legacy `trimOutput`
keeps the first `MAX_OUTPUT_CHARS` characters plus the marker; outputs
within the cap are returned unchanged by both. -/
theorem C3_trim (moc : Nat) (v : Str) (hpos : 0 < moc) :
    SentinelManager.trimOutput moc v = specTrimLast moc v ∧
    LegacyManager.trimOutput moc v = specTrimFirst moc v := by
  constructor
  · unfold SentinelManager.trimOutput specTrimLast
    split
    · rfl
    · next h =>
      rw [jsSliceLast]
      rw [lastChars_eq_drop moc v (by omega)]
      have : (moc == 0) = false := by
        simp only [beq_eq_false_iff_ne, ne_eq]
        omega
      rw [this]
      simp
  · rfl

/-- Claim C3 (witness): a concrete over-long output under a cap of 3. -/
theorem C3_trim_witness :
    SentinelManager.trimOutput 3 "abcde".data = specTrimLast 3 "abcde".data ∧
    LegacyManager.trimOutput 3 "abcde".data = specTrimFirst 3 "abcde".data :=
  C3_trim 3 "abcde".data (by decide)

/-! Claim C7.  The extraction normalises the captured contents, but
`normalized || undefined` stores nothing when the contents collapse to
the empty string, so "the stored finalResult equals the collapsed
contents of the first match" fails for whitespace-only contents. -/

/-- Claim C7 (counterexample): a bubble whose final-result tag contains
only whitespace has a first match whose collapsed contents are the empty
string, yet no `finalResult` is stored. -/
theorem C7_counterexample :
    specFinalResult (joinBubbles ["<final_result>  </final_result>".data]) = some [] ∧
    storedFinalResult ["<final_result>  </final_result>".data] = none := by
  constructor
  · rfl
  · rfl

/-- Claim C7 (amended): for every successful trigger run, the stored
`finalResult` is the whitespace-collapsed, trimmed contents of the first
case-insensitive final-result match of the bubbles joined with blank
lines when that normal form is non-empty; when there is no match, or the
contents collapse to the empty string, no `finalResult` is stored. -/
theorem C7_final_result (bubbles : List Str) :
    (specFinalResult (joinBubbles bubbles) = none → storedFinalResult bubbles = none) ∧
    (∀ x, specFinalResult (joinBubbles bubbles) = some x → x ≠ [] →
      storedFinalResult bubbles = some x) ∧
    (∀ x, specFinalResult (joinBubbles bubbles) = some x → x = [] →
      storedFinalResult bubbles = none) := by
  unfold storedFinalResult extractFinalResult specFinalResult
  cases h : firstFinalResultContents (joinBubbles bubbles) with
  | none =>
    refine ⟨fun _ => rfl, ?_, ?_⟩
    · intro x hx
      simp at hx
    · intro x hx
      simp at hx
  | some inner =>
    simp only [Option.map_some']
    refine ⟨?_, ?_, ?_⟩
    · intro hx
      simp at hx
    · intro x hx hne
      obtain rfl : jsTrim (collapseWs inner) = x := by
        simpa using hx
      simp [List.isEmpty_iff, hne]
    · intro x hx hemp
      obtain rfl : jsTrim (collapseWs inner) = x := by
        simpa using hx
      simp [List.isEmpty_iff, hemp]

/-- Claim C7 (witness): a concrete run whose bubbles carry
`<final_result> /tmp/x.txt </final_result>` stores `/tmp/x.txt`. -/
theorem C7_final_result_witness :
    storedFinalResult ["done".data, "<final_result> /tmp/x.txt </final_result>".data] =
      some "/tmp/x.txt".data :=
  (C7_final_result ["done".data, "<final_result> /tmp/x.txt </final_result>".data]).2.1
    "/tmp/x.txt".data (by decide) (by decide)

theorem takeLast_eq_self {α : Type} (n : Nat) (l : List α) (h : l.length ≤ n) :
    takeLast n l = l := by
  unfold takeLast
  have h0 : l.length - n = 0 := by omega
  rw [h0, List.drop_zero]

/-! Claim C8.  The store is only written back when the normalised item is
new, so a prior file that already violates the claimed bounds is left
untouched: the claim fails over "every prior state of the persistent
memory file".  For the states the code itself can write, the claimed
bounds hold. -/

/-- Claim C8 (counterexample): a prior file holding the normalised item
twice is left unchanged by the call, so after the call the file still
contains the item twice, refuting "at most once" over every prior file
state. -/
theorem C8_counterexample :
    addSystemPromptMemoryFile ["x".data, "x".data] "x".data =
      Except.ok ["x".data, "x".data] ∧
    List.count (normalizeMemory "x".data) ["x".data, "x".data] = 2 := by
  exact ⟨rfl, rfl⟩

/-- Claim C8 (amended): when the normalised item is already among the
read items the file is written not at all (hence left exactly as it was);
when it is new, the new file is the read items plus the item, cut to the
newest `MAX_MEMORY_ITEMS` entries (oldest dropped first), and then it
contains the item exactly once and holds at most `MAX_MEMORY_ITEMS`
entries. -/
theorem C8_memory (file : List Str) (m : Str) (hne : normalizeMemory m ≠ []) :
    ((readStoreItems file).contains (normalizeMemory m) = true →
      addSystemPromptMemoryFile file m = .ok file) ∧
    ((readStoreItems file).contains (normalizeMemory m) = false →
      addSystemPromptMemoryFile file m =
        .ok (takeLast MAX_MEMORY_ITEMS (readStoreItems file ++ [normalizeMemory m])) ∧
      List.count (normalizeMemory m)
          (takeLast MAX_MEMORY_ITEMS (readStoreItems file ++ [normalizeMemory m])) = 1 ∧
      (takeLast MAX_MEMORY_ITEMS (readStoreItems file ++ [normalizeMemory m])).length ≤
        MAX_MEMORY_ITEMS) := by
  have hnotempty : (normalizeMemory m).isEmpty = false := by
    rw [List.isEmpty_eq_false_iff_exists_mem]
    cases h : normalizeMemory m with
    | nil => exact absurd h hne
    | cons a as => exact ⟨a, by simp⟩
  constructor
  · intro hc
    unfold addSystemPromptMemoryFile
    simp only [hnotempty, Bool.false_eq_true, if_false, hc, if_true]
  · intro hc
    have hnm : normalizeMemory m ∉ readStoreItems file := by simpa using hc
    have hx0 : List.count (normalizeMemory m) (readStoreItems file) = 0 :=
      List.count_eq_zero.mpr hnm
    refine ⟨?_, ?_, ?_⟩
    · unfold addSystemPromptMemoryFile
      simp only [hnotempty, Bool.false_eq_true, if_false, hc]
      split
      · rfl
      · next hnl =>
        rw [takeLast_eq_self MAX_MEMORY_ITEMS _ (Nat.le_of_not_lt hnl)]
    · have hk : takeLast MAX_MEMORY_ITEMS (readStoreItems file ++ [normalizeMemory m]) =
          (readStoreItems file).drop
              ((readStoreItems file).length + 1 - MAX_MEMORY_ITEMS) ++ [normalizeMemory m] := by
        unfold takeLast
        rw [List.length_append, List.drop_append_eq_append_drop]
        have hz : (readStoreItems file).length + [normalizeMemory m].length -
            MAX_MEMORY_ITEMS - (readStoreItems file).length = 0 := by
          simp only [List.length_singleton, MAX_MEMORY_ITEMS]
          omega
        rw [hz, List.drop_zero]
        simp only [List.length_singleton]
      rw [hk, List.count_append]
      have hd : List.count (normalizeMemory m)
          ((readStoreItems file).drop
            ((readStoreItems file).length + 1 - MAX_MEMORY_ITEMS)) = 0 :=
        Nat.le_zero.mp (hx0 ▸ List.Sublist.count_le (List.drop_sublist _ _) _)
      rw [hd]
      simp
    · simp only [takeLast, List.length_drop]
      omega

/-- Claim C8 (witness): adding a new item to a one-item file appends its
normal form. -/
theorem C8_memory_witness :
    addSystemPromptMemoryFile ["a".data] "b".data =
      Except.ok (takeLast MAX_MEMORY_ITEMS (readStoreItems ["a".data] ++
        [normalizeMemory "b".data])) :=
  (((C8_memory ["a".data] "b".data (by decide)).2) (by decide)).1

/-! Claim C5.  The first half of the claim (descending application order,
line-range replacement) matches the code, but `applyPatches` performs no
range check: `Array.prototype.splice` silently clamps out-of-bounds
indexes and `runTool` reports success, so no `InvalidRange` error ever
occurs. -/

/-- Claim C5 (counterexample): a patch far beyond the file's three lines
is out of bounds, yet `edit_file` succeeds, appending the new text after
the clamped splice point instead of failing with `InvalidRange`. -/
theorem C5_counterexample :
    patchOutOfBounds (splitOnNl "a\nb\nc".data).length
      { startLine := 10, endLine := 12, newText := "X".data } ∧
    editFileTool "a\nb\nc".data [{ startLine := 10, endLine := 12, newText := "X".data }] =
      Except.ok { newContent := "a\nb\nc\nX".data, applied := true, hunksApplied := 1 } := by
  exact ⟨Or.inl (by decide), rfl⟩

theorem insertByDescStart_perm (p : EditPatch) (l : List EditPatch) :
    List.Perm (insertByDescStart p l) (p :: l) := by
  induction l with
  | nil => exact List.Perm.refl _
  | cons q rest ih =>
    unfold insertByDescStart
    split
    · exact List.Perm.trans (List.Perm.cons q ih) (List.Perm.swap p q rest)
    · exact List.Perm.refl _

theorem sortByDescStart_perm (l : List EditPatch) :
    List.Perm (sortByDescStart l) l := by
  induction l with
  | nil => exact List.Perm.refl _
  | cons p rest ih =>
    exact List.Perm.trans (insertByDescStart_perm p (sortByDescStart rest))
      (List.Perm.cons p ih)

theorem sorted_insertByDescStart (p : EditPatch) (l : List EditPatch)
    (h : l.Sorted descStart) : (insertByDescStart p l).Sorted descStart := by
  induction l with
  | nil => simp [insertByDescStart, descStart]
  | cons q rest ih =>
    rw [List.sorted_cons] at h
    unfold insertByDescStart
    split
    · next hlt =>
      rw [List.sorted_cons]
      refine ⟨?_, ih h.2⟩
      intro b hb
      have hb2 : b ∈ p :: rest := (insertByDescStart_perm p rest).mem_iff.mp hb
      rcases List.mem_cons.mp hb2 with rfl | hbr
      · exact Nat.le_of_lt hlt
      · exact h.1 b hbr
    · next hge =>
      rw [List.sorted_cons]
      constructor
      · intro b hb
        rcases List.mem_cons.mp hb with rfl | hbr
        · exact Nat.le_of_not_lt hge
        · exact Nat.le_trans (h.1 b hbr) (Nat.le_of_not_lt hge)
      · rw [List.sorted_cons]
        exact h

theorem sortByDescStart_sorted (l : List EditPatch) :
    (sortByDescStart l).Sorted descStart := by
  induction l with
  | nil => simp [sortByDescStart]
  | cons p rest ih => exact sorted_insertByDescStart p _ ih

theorem applyOnePatch_inBounds (ls : List Str) (p : EditPatch)
    (h1 : 1 ≤ p.startLine) (h2 : p.startLine ≤ p.endLine) (h3 : p.endLine ≤ ls.length) :
    applyOnePatch ls p =
      ls.take (p.startLine - 1) ++ splitOnNl p.newText ++ ls.drop p.endLine := by
  simp only [applyOnePatch, jsSplice]
  have hs : min (p.startLine - 1) ls.length = p.startLine - 1 := by omega
  have hd : min (p.endLine - (p.startLine - 1)) (ls.length - min (p.startLine - 1) ls.length) =
      p.endLine - (p.startLine - 1) := by omega
  rw [hd, hs]
  have he : p.startLine - 1 + (p.endLine - (p.startLine - 1)) = p.endLine := by omega
  rw [he]

/-- Claim C5 (amended): `edit_file` applies patches sorted stably by
descending `startLine` (the sort is a descending-sorted permutation of
the input), an in-bounds patch replaces the 1-based inclusive line range
`[startLine, endLine]` with `newText.split("\n")`, and the tool never
fails on an out-of-bounds range: splice clamping makes every patch list
succeed. -/
theorem C5_edit (content : Str) (patches : List EditPatch) (p : EditPatch)
    (h1 : 1 ≤ p.startLine) (h2 : p.startLine ≤ p.endLine)
    (h3 : p.endLine ≤ (splitOnNl content).length) :
    (∃ r, editFileTool content patches = Except.ok r) ∧
    List.Perm (sortByDescStart patches) patches ∧
    List.Sorted descStart (sortByDescStart patches) ∧
    applyPatches content [p] =
      joinNl ((splitOnNl content).take (p.startLine - 1) ++ splitOnNl p.newText ++
        (splitOnNl content).drop p.endLine) := by
  refine ⟨⟨_, rfl⟩, sortByDescStart_perm patches, sortByDescStart_sorted patches, ?_⟩
  unfold applyPatches
  show joinNl ((insertByDescStart p []).foldl applyOnePatch (splitOnNl content)) = _
  simp only [insertByDescStart, List.foldl_cons, List.foldl_nil]
  rw [applyOnePatch_inBounds _ p h1 h2 h3]

/-- Claim C5 (witness): replacing line 2 of "a\nb\nc" with "B". -/
theorem C5_edit_witness :
    applyPatches "a\nb\nc".data [{ startLine := 2, endLine := 2, newText := "B".data }] =
      joinNl ((splitOnNl "a\nb\nc".data).take (2 - 1) ++ splitOnNl "B".data ++
        (splitOnNl "a\nb\nc".data).drop 2) :=
  (C5_edit "a\nb\nc".data [{ startLine := 2, endLine := 2, newText := "B".data }]
    { startLine := 2, endLine := 2, newText := "B".data }
    (by decide) (by decide) (by decide)).2.2.2

/-! Claim C9. -/

/-- Claim C9 (confirmed): `upsertConversation` with an absent, empty or
unknown id appends and returns a fresh conversation carrying the fresh
id, the default title "New chat", the requested model and the current
timestamp; with the id of an existing conversation it returns that row
with only `model` and `updatedAt` replaced, and rewrites the table
pointwise, touching only rows with that id and only those two fields. -/
theorem C9_upsert (tbl : ConversationTable) (freshId ts : String) (id? : Option String)
    (model : String) :
    ((id? = none ∨ ∃ id, id? = some id ∧ (id.isEmpty = true ∨ getConversation tbl id = none)) →
      upsertConversation tbl freshId ts id? model =
        (freshConversation freshId ts model, tbl ++ [freshConversation freshId ts model])) ∧
    (∀ id existing, id? = some id → ¬ id.isEmpty = true →
      getConversation tbl id = some existing →
      (upsertConversation tbl freshId ts id? model).1 =
        { existing with model := model, updatedAt := ts } ∧
      (upsertConversation tbl freshId ts id? model).2.length = tbl.length ∧
      ∀ i : Nat, (upsertConversation tbl freshId ts id? model).2[i]? =
        (tbl[i]?).map fun c =>
          if c.id = id then { c with model := model, updatedAt := ts } else c) := by
  constructor
  · rintro (rfl | ⟨id, rfl, hcase⟩)
    · rfl
    · unfold upsertConversation
      dsimp only
      rcases hcase with hemp | hunk
      · rw [if_pos hemp]
        rfl
      · by_cases hemp2 : id.isEmpty = true
        · rw [if_pos hemp2]
          rfl
        · rw [if_neg hemp2, hunk]
          rfl
  · intro id existing hid hemp hex
    subst hid
    unfold upsertConversation
    dsimp only
    rw [if_neg hemp, hex]
    refine ⟨rfl, by simp, ?_⟩
    intro i
    rw [List.getElem?_map]
    cases tbl[i]? with
    | none => rfl
    | some c =>
      simp only [Option.map_some']
      by_cases hc : c.id = id
      · simp [hc]
      · simp [hc]

/-- Claim C9 (witness): updating an existing conversation only bumps its
model and update stamp. -/
theorem C9_upsert_witness :
    (upsertConversation
      [{ id := "c1", title := "T", model := "m0", createdAt := "t0", updatedAt := "t0" }]
      "fresh" "t1" (some "c1") "m1").1 =
      { id := "c1", title := "T", model := "m1", createdAt := "t0", updatedAt := "t1" } :=
  ((C9_upsert
      [{ id := "c1", title := "T", model := "m0", createdAt := "t0", updatedAt := "t0" }]
      "fresh" "t1" (some "c1") "m1").2 "c1"
    { id := "c1", title := "T", model := "m0", createdAt := "t0", updatedAt := "t0" }
    rfl (by decide) rfl).1

/-! Claim C6. -/

theorem runLoopFrom_count (oracle : LLMOracle) :
    ∀ k i acc, 8 - i ≤ k → (runLoopFrom oracle i acc).2 ≤ 8 - i := by
  intro k
  induction k with
  | zero =>
    intro i acc h
    have hi : 8 ≤ i := by omega
    unfold runLoopFrom
    rw [dif_pos hi]
    exact Nat.zero_le _
  | succ k ih =>
    intro i acc h
    by_cases hi : 8 ≤ i
    · unfold runLoopFrom
      rw [dif_pos hi]
      exact Nat.zero_le _
    · unfold runLoopFrom
      rw [dif_neg hi]
      cases horacle : oracle i with
      | none =>
        dsimp only
        omega
      | some msg =>
        dsimp only
        split
        · dsimp only
          omega
        · dsimp only
          refine Nat.le_trans (Nat.succ_le_succ (ih (i + 1) _ (by omega))) ?_
          omega

theorem legacyLoopFrom_count (oracle : LLMOracle) :
    ∀ k i acc, 8 - i ≤ k → (legacyLoopFrom oracle i acc).2 ≤ 8 - i := by
  intro k
  induction k with
  | zero =>
    intro i acc h
    have hi : 8 ≤ i := by omega
    unfold legacyLoopFrom
    rw [dif_pos hi]
    exact Nat.zero_le _
  | succ k ih =>
    intro i acc h
    by_cases hi : 8 ≤ i
    · unfold legacyLoopFrom
      rw [dif_pos hi]
      exact Nat.zero_le _
    · unfold legacyLoopFrom
      rw [dif_neg hi]
      cases horacle : oracle i with
      | none =>
        dsimp only
        omega
      | some msg =>
        dsimp only
        split
        · dsimp only
          omega
        · dsimp only
          refine Nat.le_trans (Nat.succ_le_succ (ih (i + 1) _ (by omega))) ?_
          omega

/-- Claim C6 (confirmed): for every behaviour of the LLM endpoint (and of
the tools, which the oracle abstracts), both the `runAssistantTurn` loop
and the legacy stream loop perform at most 8 LLM round trips; both are
total functions of the oracle, so the loop always terminates, and the
orchestrator then proceeds to split the accumulated text into bubbles. -/
theorem C6_loop_bound (oracle : LLMOracle) :
    (runAssistantLoop oracle).2 ≤ 8 ∧ (legacyLoopFrom oracle 0 []).2 ≤ 8 ∧
    (runAssistantLoop oracle).1 = splitIntoBubbles (jsTrim (runLoopFrom oracle 0 []).1) := by
  refine ⟨?_, ?_, rfl⟩
  · have h := runLoopFrom_count oracle 8 0 [] (by omega)
    simpa [runAssistantLoop] using h
  · have h := legacyLoopFrom_count oracle 8 0 [] (by omega)
    simpa using h

/-! Claim C1. -/

theorem pairUp_getElem : ∀ (l : List Str) (i : Nat),
    (pairUp l)[i]? =
      (match l[2 * i]?, l[2 * i + 1]? with
      | some a, some b => some (a ++ ' ' :: b)
      | some a, none => some a
      | none, _ => none)
  | [], i => by simp [pairUp]
  | [s], 0 => by simp [pairUp]
  | [s], (i + 1) => by
    have h2 : 2 * (i + 1) = 2 * i + 1 + 1 := by omega
    rw [h2]
    simp [pairUp]
  | a :: b :: rest, 0 => by simp [pairUp]
  | a :: b :: rest, (j + 1) => by
    have ih := pairUp_getElem rest j
    have h2 : 2 * (j + 1) = 2 * j + 1 + 1 := by omega
    have h3 : 2 * (j + 1) + 1 = 2 * j + 1 + 1 + 1 := by omega
    simp only [pairUp, h2, h3, List.getElem?_cons_succ]
    exact ih

/-- Claim C1 (confirmed): the bubble splitter returns no bubbles on empty
normalised input; exactly the (trimmed, non-empty) paragraphs when there
are two or more of them; the whole normalised text as a single bubble for
a single paragraph of at most two sentences; and, for more than two
sentences, consecutive sentence pairs joined by a space with a possibly
single-sentence last bubble. -/
theorem C1_bubbles (text : Str) :
    (normalizeText text = [] → splitIntoBubbles text = []) ∧
    (2 ≤ (paragraphsOf (normalizeText text)).length →
      splitIntoBubbles text = paragraphsOf (normalizeText text)) ∧
    ((paragraphsOf (normalizeText text)).length ≤ 1 →
      (sentencesOf (normalizeText text)).length ≤ 2 → normalizeText text ≠ [] →
      splitIntoBubbles text = [normalizeText text]) ∧
    ((paragraphsOf (normalizeText text)).length ≤ 1 →
      2 < (sentencesOf (normalizeText text)).length →
      splitIntoBubbles text = pairUp (sentencesOf (normalizeText text)) ∧
      ∀ i : Nat, (splitIntoBubbles text)[i]? =
        (match (sentencesOf (normalizeText text))[2 * i]?,
              (sentencesOf (normalizeText text))[2 * i + 1]? with
        | some a, some b => some (a ++ ' ' :: b)
        | some a, none => some a
        | none, _ => none)) := by
  refine ⟨?_, ?_, ?_, ?_⟩
  · intro h
    simp only [splitIntoBubbles]
    rw [h]
    rfl
  · intro h
    have hne : normalizeText text ≠ [] := by
      intro he
      rw [he] at h
      simp [paragraphsOf, splitParas, splitParasAux, jsTrim] at h
    have hb : ¬ ((normalizeText text).isEmpty = true) := by
      simpa [List.isEmpty_iff] using hne
    simp only [splitIntoBubbles]
    rw [if_neg hb, if_pos (by omega : 1 < (paragraphsOf (normalizeText text)).length)]
  · intro hp hs hne
    have hb : ¬ ((normalizeText text).isEmpty = true) := by
      simpa [List.isEmpty_iff] using hne
    simp only [splitIntoBubbles]
    rw [if_neg hb, if_neg (by omega : ¬ 1 < (paragraphsOf (normalizeText text)).length),
      if_pos hs]
  · intro hp hs
    have hne : normalizeText text ≠ [] := by
      intro he
      rw [he] at hs
      simp [sentencesOf, splitSents, splitSentsAux, jsTrim] at hs
    have hb : ¬ ((normalizeText text).isEmpty = true) := by
      simpa [List.isEmpty_iff] using hne
    have heq : splitIntoBubbles text = pairUp (sentencesOf (normalizeText text)) := by
      simp only [splitIntoBubbles]
      rw [if_neg hb, if_neg (by omega : ¬ 1 < (paragraphsOf (normalizeText text)).length),
        if_neg (by omega : ¬ (sentencesOf (normalizeText text)).length ≤ 2)]
    refine ⟨heq, ?_⟩
    intro i
    rw [heq]
    exact pairUp_getElem _ i

/-- Claim C1 (witness): a two-paragraph text splits into its paragraphs,
and a short single-paragraph text stays one bubble. -/
theorem C1_bubbles_witness :
    splitIntoBubbles "a\n\nb".data = paragraphsOf (normalizeText "a\n\nb".data) ∧
    splitIntoBubbles "one two".data = [normalizeText "one two".data] :=
  ⟨(C1_bubbles "a\n\nb".data).2.1 (by decide),
   (C1_bubbles "one two".data).2.2.1 (by decide) (by decide) (by decide)⟩

/-! Claims C4 and C10: helper lemmas about session lookup. -/

theorem find?_session_update (l : List SessionState) (sid : String)
    (g : SessionState → SessionState) (hg : ∀ x, (g x).id = x.id) :
    ((l.map fun x => if x.id == sid then g x else x).find? (fun x => x.id == sid)) =
      (l.find? fun x => x.id == sid).map g := by
  induction l with
  | nil => rfl
  | cons x rest ih =>
    by_cases hx : (x.id == sid) = true
    · have hgx : ((g x).id == sid) = true := by rw [hg x]; exact hx
      rw [List.map_cons, if_pos hx]
      simp only [List.find?, hgx, hx]
      rfl
    · rw [List.map_cons, if_neg hx]
      simp only [List.find?, hx]
      exact ih

theorem find?_filter_keep (l : List SessionState) (p q : SessionState → Bool)
    (s : SessionState) (h : l.find? p = some s) (hq : q s = true) :
    (l.filter q).find? p = some s := by
  induction l with
  | nil => simp at h
  | cons x rest ih =>
    by_cases hx : p x = true
    · rw [List.find?_cons_of_pos _ hx] at h
      obtain rfl : x = s := by exact Option.some.inj h
      rw [List.filter_cons_of_pos hq, List.find?_cons_of_pos _ hx]
    · rw [List.find?_cons_of_neg _ hx] at h
      by_cases hqx : q x = true
      · rw [List.filter_cons_of_pos hqx, List.find?_cons_of_neg _ hx]
        exact ih h
      · rw [List.filter_cons_of_neg (by simpa using hqx)]
        exact ih h

theorem lookup_cleanupSessions (t : Nat) (st : ManagerState) (s : SessionState)
    (hfound : lookupSession st s.id = some s)
    (halive : t - s.lastUsedAt ≤ SESSION_TTL_MS) :
    lookupSession (cleanupSessions t st).1 s.id = some s := by
  unfold cleanupSessions
  split
  · exact hfound
  · exact find?_filter_keep _ _ _ _ hfound
      (by simp only [Bool.not_eq_true', decide_eq_false_iff_not]; omega)

theorem cleanupSessions_subset (t : Nat) (st : ManagerState) :
    ∀ y ∈ (cleanupSessions t st).1.sessions, y ∈ st.sessions := by
  unfold cleanupSessions
  split
  · intro y hy; exact hy
  · intro y hy
    exact (List.mem_filter.mp hy).1

theorem getSession_hit (cfg : ManagerConfig) (t : Nat) (freshId : String)
    (sessionId? cwd? : Option String) (st : ManagerState) (s : SessionState)
    (hsid : jsOptStr sessionId? = some s.id)
    (hfound : lookupSession st s.id = some s)
    (hcwd : jsOptStr cwd? = none ∨
      ∃ c, jsOptStr cwd? = some c ∧ (cfg.resolve c == s.cwd) = true) :
    getSession cfg t freshId sessionId? cwd? st =
      ({ s with lastUsedAt := t },
       updateSessionState st s.id (fun x => { x with lastUsedAt := t }), []) := by
  unfold getSession
  rw [hsid]
  dsimp only
  rw [hfound]
  dsimp only
  rcases hcwd with hnone | ⟨c, hc, heq⟩
  · rw [hnone]
  · rw [hc]
    dsimp only
    rw [if_pos heq]

theorem getSession_cwd_change (cfg : ManagerConfig) (t : Nat) (freshId : String)
    (sessionId? cwd? : Option String) (st : ManagerState) (s : SessionState) (c : String)
    (hsid : jsOptStr sessionId? = some s.id)
    (hfound : lookupSession st s.id = some s)
    (hc : jsOptStr cwd? = some c)
    (hdiff : (cfg.resolve c == s.cwd) = false) :
    ∃ st2 : ManagerState,
      st2.sessions = (updateSessionState st s.id
          (fun x => { x with lastUsedAt := t })).sessions.filter
            (fun x => !(x.id == s.id)) ∧
      getSession cfg t freshId sessionId? cwd? st =
        ((createSessionInternal cfg t freshId cwd? st2).1,
         (createSessionInternal cfg t freshId cwd? st2).2.1,
         s.id :: (createSessionInternal cfg t freshId cwd? st2).2.2) := by
  refine ⟨{ sessions := (updateSessionState st s.id (fun x => { x with lastUsedAt := t })).sessions.filter (fun x => !(x.id == s.id)), lastCleanup := st.lastCleanup }, rfl, ?_⟩
  unfold getSession
  rw [hsid]
  dsimp only
  rw [hfound]
  dsimp only
  rw [hc]
  dsimp only
  rw [if_neg (by simp [hdiff])]
  rfl

theorem createSessionInternal_fst (cfg : ManagerConfig) (t : Nat) (freshId : String)
    (cwd? : Option String) (st : ManagerState) :
    (createSessionInternal cfg t freshId cwd? st).1 = newSession cfg t freshId cwd? := rfl

theorem createSessionInternal_shape (cfg : ManagerConfig) (t : Nat) (freshId : String)
    (cwd? : Option String) (st : ManagerState) :
    ∃ pre : List SessionState,
      (createSessionInternal cfg t freshId cwd? st).2.1.sessions =
        pre ++ [newSession cfg t freshId cwd?] ∧
      ∀ y ∈ pre, y ∈ st.sessions := by
  unfold createSessionInternal
  dsimp only
  split
  · next hcap =>
    cases hold : oldestSession (cleanupSessions t st).1.sessions with
    | none =>
      dsimp only
      exact ⟨(cleanupSessions t st).1.sessions, rfl, cleanupSessions_subset t st⟩
    | some oldest =>
      dsimp only
      refine ⟨_, rfl, ?_⟩
      intro y hy
      exact cleanupSessions_subset t st y (List.mem_filter.mp hy).1
  · exact ⟨(cleanupSessions t st).1.sessions, rfl, cleanupSessions_subset t st⟩

/-! Claim C4. -/

/-- Claim C4 (confirmed): a `run_command` that resolves to a live session
which already has a pending non-interactive command or an active
interactive command returns the structured busy result (`exitCode` null,
explanatory stderr, the session's cwd) instead of queueing or throwing,
and the session keeps exactly the same in-flight command state. -/
theorem C4_busy (cfg : ManagerConfig) (t : Nat) (freshId token : String)
    (input : RunCommandInput) (st : ManagerState) (s : SessionState)
    (hsid : jsOptStr input.sessionId = some s.id)
    (hfound : lookupSession st s.id = some s)
    (halive : t - s.lastUsedAt ≤ SESSION_TTL_MS)
    (hcwd : jsOptStr input.cwd = none ∨
      ∃ c, jsOptStr input.cwd = some c ∧ (cfg.resolve c == s.cwd) = true)
    (hbusy : s.pendingCommand.isSome = true ∨ s.interactive.isSome = true) :
    (runCommandDispatch cfg t freshId token input st).1 =
      .busy (busyResult s.id s.cwd) ∧
    ∃ s2, lookupSession (runCommandDispatch cfg t freshId token input st).2.1 s.id =
        some s2 ∧
      s2.pendingCommand = s.pendingCommand ∧ s2.interactive = s.interactive := by
  have hclean : lookupSession (cleanupSessions t st).1 s.id = some s :=
    lookup_cleanupSessions t st s hfound halive
  have hget := getSession_hit cfg t freshId input.sessionId input.cwd
    (cleanupSessions t st).1 s hsid hclean hcwd
  have hb : (s.pendingCommand.isSome || s.interactive.isSome) = true := by
    rcases hbusy with h | h
    · simp [h]
    · simp [h]
  unfold runCommandDispatch
  dsimp only
  rw [hget]
  dsimp only
  rw [if_pos hb]
  refine ⟨rfl, { s with lastUsedAt := t }, ?_, rfl, rfl⟩
  unfold lookupSession updateSessionState
  dsimp only
  rw [find?_session_update (cleanupSessions t st).1.sessions s.id
    (fun x => { x with lastUsedAt := t }) (fun x => rfl)]
  have hcl2 : (cleanupSessions t st).1.sessions.find? (fun x => x.id == s.id) = some s :=
    hclean
  rw [hcl2]
  rfl

/-- Claim C4 (witness): a session with a pending command, resolved by id
with no explicit cwd, fails fast and keeps its pending command. -/
theorem C4_busy_witness :
    (runCommandDispatch sampleConfig 100 "F1" "tok2" sampleBusyInput sampleBusyState).1 =
      RunStart.busy (busyResult "S1" "/w") ∧
    ∃ s2, lookupSession
        (runCommandDispatch sampleConfig 100 "F1" "tok2" sampleBusyInput
          sampleBusyState).2.1 "S1" = some s2 ∧
      s2.pendingCommand = some samplePending ∧ s2.interactive = none :=
  C4_busy sampleConfig 100 "F1" "tok2" sampleBusyInput sampleBusyState sampleBusySession
    rfl rfl (by decide) (Or.inl rfl) (Or.inl rfl)

/-! Claim C10. -/

/-- Claim C10 (confirmed): a `run_command` naming a live session together
with an explicit cwd that resolves to a different directory kills that
session (its id is in the kill list), removes it from the pool, and
dispatches the command on a freshly created session carrying the fresh
id: the new session lives in the resolved directory, has no interactive
command, and carries the new pending command over empty output tails, so
the old session's environment and in-flight state are discarded. -/
theorem C10_cwd_change (cfg : ManagerConfig) (t : Nat) (freshId token c : String)
    (input : RunCommandInput) (st : ManagerState) (s : SessionState)
    (hsid : jsOptStr input.sessionId = some s.id)
    (hfound : lookupSession st s.id = some s)
    (halive : t - s.lastUsedAt ≤ SESSION_TTL_MS)
    (hc : jsOptStr input.cwd = some c)
    (hdiff : (cfg.resolve c == s.cwd) = false)
    (hfresh : ∀ x ∈ st.sessions, x.id ≠ freshId)
    (hni : input.interactive = false) :
    (runCommandDispatch cfg t freshId token input st).1 = .dispatched freshId ∧
    s.id ∈ (runCommandDispatch cfg t freshId token input st).2.2 ∧
    lookupSession (runCommandDispatch cfg t freshId token input st).2.1 s.id = none ∧
    ∃ s2, lookupSession (runCommandDispatch cfg t freshId token input st).2.1 freshId =
        some s2 ∧
      s2.cwd = cfg.resolve c ∧ s2.interactive = none ∧
      s2.pendingCommand =
        some { token := token, startedAt := t, stdoutStart := 0, stderrStart := 0 } := by
  have hclean : lookupSession (cleanupSessions t st).1 s.id = some s :=
    lookup_cleanupSessions t st s hfound halive
  have hsub0 := cleanupSessions_subset t st
  have hsidfresh : s.id ≠ freshId :=
    hfresh s (List.mem_of_find?_eq_some hfound)
  obtain ⟨st2, hst2sess, hget⟩ := getSession_cwd_change cfg t freshId input.sessionId
    input.cwd (cleanupSessions t st).1 s c hsid hclean hc hdiff
  have hst2mem : ∀ y ∈ st2.sessions, y ∈ st.sessions ∧ (y.id == s.id) = false := by
    intro y hy
    rw [hst2sess] at hy
    obtain ⟨hymem, hyneq⟩ := List.mem_filter.mp hy
    have hymem2 : y ∈ (cleanupSessions t st).1.sessions.map
        (fun x => if x.id == s.id then { x with lastUsedAt := t } else x) := hymem
    obtain ⟨x, hxmem, hxeq⟩ := List.mem_map.mp hymem2
    by_cases hxs : (x.id == s.id) = true
    · rw [if_pos hxs] at hxeq
      subst hxeq
      simp only [Bool.not_eq_true'] at hyneq
      rw [show ({ x with lastUsedAt := t } : SessionState).id = x.id from rfl] at hyneq
      rw [hyneq] at hxs
      exact absurd hxs (by simp)
    · rw [if_neg hxs] at hxeq
      subst hxeq
      exact ⟨hsub0 x hxmem, by simpa using hxs⟩
  obtain ⟨pre, hshape, hpre⟩ := createSessionInternal_shape cfg t freshId input.cwd st2
  have hprefacts : ∀ y ∈ pre, y.id ≠ freshId ∧ (y.id == s.id) = false := by
    intro y hy
    obtain ⟨hymem, hyneq⟩ := hst2mem y (hpre y hy)
    exact ⟨hfresh y hymem, hyneq⟩
  unfold runCommandDispatch
  dsimp only
  rw [hget]
  dsimp only
  rw [if_neg (by simp [createSessionInternal_fst, newSession])]
  rw [hni]
  rw [if_neg (by simp)]
  simp only [createSessionInternal_fst]
  refine ⟨rfl, ?_, ?_, ?_⟩
  · exact List.mem_append_right _ (List.mem_cons_self _ _)
  · unfold lookupSession updateSessionState
    dsimp only
    rw [hshape]
    rw [List.find?_eq_none]
    intro x hx
    obtain ⟨y, hymem, hyeq⟩ := List.mem_map.mp hx
    have hyid : x.id = y.id := by
      subst hyeq
      split
      · rfl
      · rfl
    rcases List.mem_append.mp hymem with hyp | hynew
    · have := (hprefacts y hyp).2
      simp only [hyid]
      simp [this]
    · have : y = newSession cfg t freshId input.cwd := by simpa using hynew
      subst this
      simp only [hyid]
      simp only [newSession]
      simp [hsidfresh]
      intro hcontra
      exact absurd hcontra.symm hsidfresh
  · have hprenone : ∀ g : SessionState → SessionState, (∀ x, (g x).id = x.id) →
        ((pre.map fun x => if x.id == freshId then g x else x).find?
          (fun x => x.id == freshId)) = none := by
      intro g hg
      rw [List.find?_eq_none]
      intro x hx
      obtain ⟨y, hymem, hyeq⟩ := List.mem_map.mp hx
      have hyid : x.id = y.id := by
        subst hyeq
        split
        · exact hg y
        · rfl
      have hyfresh := (hprefacts y hymem).1
      simp only [hyid]
      simp [hyfresh]
    have hlook : lookupSession
        (updateSessionState (createSessionInternal cfg t freshId input.cwd st2).2.1 (newSession cfg t freshId input.cwd).id (fun x => { x with pendingCommand := some { token := token, startedAt := t, stdoutStart := absolutePosition (newSession cfg t freshId input.cwd).stdout, stderrStart := absolutePosition (newSession cfg t freshId input.cwd).stderr } })) freshId =
        some { newSession cfg t freshId input.cwd with pendingCommand := some { token := token, startedAt := t, stdoutStart := absolutePosition (newSession cfg t freshId input.cwd).stdout, stderrStart := absolutePosition (newSession cfg t freshId input.cwd).stderr } } := by
      unfold lookupSession updateSessionState
      dsimp only
      rw [hshape]
      rw [show (newSession cfg t freshId input.cwd).id = freshId from rfl]
      rw [List.map_append, List.find?_append]
      rw [hprenone (fun x => { x with pendingCommand := some { token := token, startedAt := t, stdoutStart := absolutePosition (newSession cfg t freshId input.cwd).stdout, stderrStart := absolutePosition (newSession cfg t freshId input.cwd).stderr } }) (fun x => rfl)]
      simp only [Option.none_or]
      have hbeq : ((newSession cfg t freshId input.cwd).id == freshId) = true := by
        simp [newSession]
      simp only [List.map_cons, List.map_nil, List.find?, hbeq, if_true]
      rfl
    refine ⟨_, hlook, ?_, rfl, rfl⟩
    show (newSession cfg t freshId input.cwd).cwd = cfg.resolve c
    unfold newSession
    rw [hc]

/-- Claim C10 (witness): a concrete busy session addressed with a
different explicit cwd is killed and replaced by a fresh dispatched
session. -/
theorem C10_cwd_change_witness :
    (runCommandDispatch sampleConfig 100 "F1" "tok2" sampleCwdInput sampleBusyState).1 =
      RunStart.dispatched "F1" ∧
    "S1" ∈ (runCommandDispatch sampleConfig 100 "F1" "tok2" sampleCwdInput
      sampleBusyState).2.2 ∧
    lookupSession (runCommandDispatch sampleConfig 100 "F1" "tok2" sampleCwdInput
      sampleBusyState).2.1 "S1" = none ∧
    ∃ s2, lookupSession (runCommandDispatch sampleConfig 100 "F1" "tok2" sampleCwdInput
        sampleBusyState).2.1 "F1" = some s2 ∧
      s2.cwd = sampleConfig.resolve "/other" ∧ s2.interactive = none ∧
      s2.pendingCommand =
        some { token := "tok2", startedAt := 100, stdoutStart := 0, stderrStart := 0 } :=
  C10_cwd_change sampleConfig 100 "F1" "tok2" "/other" sampleCwdInput sampleBusyState
    sampleBusySession rfl rfl (by decide) rfl (by decide)
    (by intro x hx; simp only [sampleBusyState] at hx; simp at hx; subst hx; decide) rfl

end Shrimp
